import Mathlib

/-!
Verification of the Student Expense Tracker ledger core.

The embedding models `src/unnamed/part_000` (the expense screen component):
the SQLite-backed record store (`addExpense`, `deleteExpense`, `updateExpense`,
`loadExpenses`), the date-boundary helpers (`getWeekStart`, `getMonthStart`),
the aggregation (`overallTotal`, `categoryTotals`) and the edit-session UI
state machine.

Modelling conventions:
- Finite JS numbers are modelled as `Rat` (exact arithmetic); a
  `parseFloat` result is a `JsNum` — `NaN`, `+Infinity`, `-Infinity` or a
  finite rational — so the absence of a finiteness check in the validation
  is representable.  Stored rows carry exact rational amounts; the one
  program path that writes a non-finite REAL (`+Infinity` passes the
  `isNaN || <= 0` check) is recorded at `addExpense` as the id consumption
  of the executed INSERT, with the non-finite row contents outside the
  exact-rational row model.
- Calendar dates ("YYYY-MM-DD" strings) are modelled as `Int` day numbers
  (days since 1970-01-01); comparison of the date strings the code produces
  agrees with comparison of day numbers.  The reference moment (`new Date()`)
  is a civil date `CivilDate`; `daysFromCivil` is the proleptic Gregorian
  conversion (the days-from-civil algorithm of Hinnant) that `Date`
  implements.
- SQL effects: `INSERT` appends a row and bumps the `AUTOINCREMENT` counter,
  `DELETE ... WHERE id = ?` filters, `UPDATE ... WHERE id = ?` maps, and
  `SELECT ... ORDER BY date DESC, id DESC` returns the filtered rows sorted
  by that key (modelled with `List.insertionSort`, a correct stable sort).
- A store call returns the store after the call paired with
  `Option StoreError`; the code signals failures by alerting and returning
  early before any write, which is `some .validationError` here.
  `notFoundError` is in the error type so that the taxonomy of the spec is
  expressible; the code never produces it.
-/

namespace ExpenseTracker

/-- A persisted expense row (table `expenses`). -/
structure Expense where
  id : Nat
  amount : Rat
  category : String
  note : Option String
  date : Int
deriving DecidableEq, Repr

/-- The persisted store: the rows plus the `AUTOINCREMENT` counter. -/
structure Store where
  rows : List Expense
  nextId : Nat
deriving DecidableEq, Repr

/-- Error taxonomy of the spec (§7).  The code itself only ever surfaces a
validation failure (an alert followed by an early return). -/
inductive StoreError where
  | validationError
  | notFoundError
deriving DecidableEq, Repr

/-- JS `String.prototype.trim`: strip whitespace from both ends.  (An
executable structural model; the `String.trim` of Lean is extensionally the
same but does not reduce in the kernel.) -/
def jsTrim (s : String) : String :=
  ⟨((s.data.dropWhile Char.isWhitespace).reverse.dropWhile
      Char.isWhitespace).reverse⟩

/-- Result of `parseFloat` over the IEEE-double domain, at the granularity
the validation distinguishes: `NaN` (parse failure), the two infinities
(reachable, e.g. `parseFloat` of the text `Infinity` or of a numeral of
about 310 digits), or a finite value, modelled exactly as a rational. -/
inductive JsNum where
  | nan
  | posInf
  | negInf
  | finite (q : Rat)
deriving DecidableEq, Repr

/-- JS `isNaN` (part_000 line 86): true exactly on `NaN`. -/
def jsIsNaN : JsNum → Bool
  | .nan => true
  | _ => false

/-- JS `amountNumber <= 0` (part_000 line 86): every comparison with `NaN`
is false, `Infinity <= 0` is false, `-Infinity <= 0` is true, and a finite
comparison is exact. -/
def jsLeZero : JsNum → Bool
  | .nan => false
  | .posInf => false
  | .negInf => true
  | .finite q => decide (q ≤ 0)

/-- Model of `addExpense` (part_000 lines 84-109): the validation is
`isNaN(amountNumber) || amountNumber <= 0` — it rejects `NaN` and
non-positive values (including `-Infinity`) but has no finiteness check,
so `+Infinity` passes — then the trimmed category must be nonempty, then
the INSERT at line 99 executes.  A finite amount is stored exactly; on the
`+Infinity` path the INSERT still executes and binds a non-finite REAL.
An IEEE non-finite value has no exact-rational image, so the record model
carries that write only as the consumption of the next AUTOINCREMENT id:
the non-finite row itself lies outside the `Rat`-valued row model, and no
theorem reads row contents from this branch (see
`addExpense_accepts_infinity`, the C2 code-bug evaluation). -/
def addExpense (s : Store) (amountNumber : JsNum) (category note : String)
    (today : Int) : Store × Option StoreError :=
  if jsIsNaN amountNumber || jsLeZero amountNumber then (s, some .validationError)
  else if jsTrim category = "" then (s, some .validationError)
  else
    match amountNumber with
    | .finite a =>
      let trimmedCategory := jsTrim category
      let trimmedNote := jsTrim note
      let row : Expense :=
        { id := s.nextId
          amount := a
          category := trimmedCategory
          note := if trimmedNote = "" then none else some trimmedNote
          date := today }
      ({ rows := s.rows ++ [row], nextId := s.nextId + 1 }, none)
    | _ => ({ rows := s.rows, nextId := s.nextId + 1 }, none)

/-- Model of `deleteExpense` (part_000 lines 111-114):
`DELETE FROM expenses WHERE id = ?`.
Never fails, also when no row has that id. -/
def deleteExpense (s : Store) (id : Nat) : Store × Option StoreError :=
  ({ s with rows := s.rows.filter (fun e => decide (e.id ≠ id)) }, none)

/-- Model of `updateExpense` (part_000 lines 116-140): one combined validation
(`isNaN || amount <= 0 || !category.trim() || editId === null`), then
`UPDATE expenses SET amount, category, note WHERE id = ?`; an `UPDATE`
matching no row succeeds and affects nothing.  The parse result is modelled
here on the finite domain (`Option Rat`, `none` = `NaN`): the missing
finiteness check of the shared validation is exhibited once, over `JsNum`,
at `addExpense` (the C2 code bug), and does not bear on the claims about
`update` — C3 needs only that the same checks run and a missing id raises
no error, C4 only that `SET` never touches `id` or `date`. -/
def updateExpense (s : Store) (amountNumber : Option Rat) (category note : String)
    (editId : Option Nat) : Store × Option StoreError :=
  match amountNumber, editId with
  | some a, some id =>
    if a ≤ 0 ∨ jsTrim category = "" then (s, some .validationError)
    else
      ({ s with
          rows := s.rows.map (fun e =>
            if e.id = id then
              { e with
                  amount := a
                  category := jsTrim category
                  note := if jsTrim note = "" then none else some (jsTrim note) }
            else e) }, none)
  | _, _ => (s, some .validationError)

/-- A civil (proleptic Gregorian) calendar date, the value a JS `Date`
denotes at the granularity of days. -/
structure CivilDate where
  year : Int
  month : Int
  day : Int
deriving DecidableEq, Repr

/-- Days since 1970-01-01 of a civil date (the `days_from_civil` algorithm
of Hinnant);
this is the day-number semantics of the "YYYY-MM-DD" strings the code
stores and compares. -/
def daysFromCivil (dt : CivilDate) : Int :=
  let y : Int := if dt.month ≤ 2 then dt.year - 1 else dt.year
  let era : Int := y.ediv 400
  let yoe : Int := y - era * 400
  let mp : Int := if dt.month ≤ 2 then dt.month + 9 else dt.month - 3
  let doy : Int := (153 * mp + 2).ediv 5 + dt.day - 1
  let doe : Int := yoe * 365 + yoe.ediv 4 - yoe.ediv 100 + doy
  era * 146097 + doe - 719468

/-- JS `Date.prototype.getDay` (0 = Sunday, ..., 6 = Saturday):
1970-01-01 (day number 0) was a Thursday, JS value 4. -/
def jsGetDay (ref : CivilDate) : Int :=
  (daysFromCivil ref + 4).emod 7

/-- Model of `getWeekStart` (part_000 lines 15-21):
`diff = getDate() - getDay() + (getDay() === 0 ? -6 : 1); setDate(diff)`.
`setDate` rolls over month boundaries, so in day numbers the result is the
reference day minus `getDay() === 0 ? 6 : getDay() - 1`. -/
def getWeekStart (ref : CivilDate) : Int :=
  daysFromCivil ref - (if jsGetDay ref = 0 then 6 else jsGetDay ref - 1)

/-- Model of `getMonthStart` (part_000 lines 23-27): `setDate(1)`, i.e. the
first
calendar day of the reference month. -/
def getMonthStart (ref : CivilDate) : Int :=
  daysFromCivil { ref with day := 1 }

/-- The filter selection: `All`, `This Week` or `This Month`. -/
inductive ExpFilter where
  | all
  | thisWeek
  | thisMonth
deriving DecidableEq, Repr

/-- The `WHERE` clause built by `loadExpenses` (part_000 lines 42-52):
no restriction for `All`, otherwise `date >= start AND date <= now`. -/
def datePred (f : ExpFilter) (ref : CivilDate) (d : Int) : Bool :=
  match f with
  | .all => true
  | .thisWeek => decide (getWeekStart ref ≤ d ∧ d ≤ daysFromCivil ref)
  | .thisMonth => decide (getMonthStart ref ≤ d ∧ d ≤ daysFromCivil ref)

/-- The key order of `ORDER BY date DESC, id DESC`: `a` may precede `b`. -/
def expBefore (a b : Expense) : Prop :=
  b.date < a.date ∨ (b.date = a.date ∧ b.id ≤ a.id)

instance : DecidableRel expBefore := fun a b => by
  unfold expBefore
  infer_instance

instance : IsTotal Expense expBefore :=
  ⟨fun a b => by unfold expBefore; omega⟩

instance : IsTrans Expense expBefore :=
  ⟨fun a b c => by unfold expBefore; omega⟩

/-- Model of `loadExpenses` (part_000 lines 42-59):
`SELECT * FROM expenses [WHERE ...] ORDER BY date DESC, id DESC`. -/
def loadExpenses (s : Store) (f : ExpFilter) (ref : CivilDate) : List Expense :=
  List.insertionSort expBefore (s.rows.filter (fun e => datePred f ref e.date))

/-- Model of `overallTotal` (part_000 line 166):
`expenses.reduce((acc, expense) => acc + expense.amount, 0)`. -/
def overallTotal (records : List Expense) : Rat :=
  records.foldl (fun acc e => acc + e.amount) 0

/-- One step of building `categoryMap` (part_000 lines 167-171):
`map[cat] = (map[cat] || 0) + expense.amount`. A JS object keeps string
keys in insertion order: an existing key is updated in place, a new key is
appended.  (For a present numeric value `v`, `v || 0 = v`: `0 || 0` is `0`.) -/
def bumpCategory (cat : String) (amt : Rat) : List (String × Rat) → List (String × Rat)
  | [] => [(cat, amt)]
  | p :: rest =>
    if p.1 = cat then (p.1, p.2 + amt) :: rest
    else p :: bumpCategory cat amt rest

/-- Model of `categoryMap` (part_000 lines 167-171): the per-category
accumulator,
keys in first-occurrence order. -/
def categoryMap (records : List Expense) : List (String × Rat) :=
  records.foldl (fun m e => bumpCategory e.category e.amount m) []

/-- The JS comparator `(a, b) => b.total - a.total`: `a` may precede `b`
when `b.total ≤ a.total`. -/
def catGe (a b : String × Rat) : Prop :=
  b.2 ≤ a.2

instance : DecidableRel catGe := fun a b => by
  unfold catGe
  infer_instance

instance : IsTotal (String × Rat) catGe :=
  ⟨fun a b => le_total b.2 a.2⟩

instance : IsTrans (String × Rat) catGe :=
  ⟨fun _ _ _ h1 h2 => le_trans h2 h1⟩

/-- Model of `categoryTotals` (part_000 lines 173-178): the category/total
pairs
sorted by total descending with a stable sort (`Array.prototype.sort` is
stable). -/
def categoryTotals (records : List Expense) : List (String × Rat) :=
  List.insertionSort catGe (categoryMap records)

/-- The component state (part_000 lines 32-40): displayed rows, the three
form fields, the active filter, and the edit-session pair
`isEditing`/`editId`. -/
structure UIState where
  store : Store
  expenses : List Expense
  amount : String
  category : String
  note : String
  filter : ExpFilter
  isEditing : Bool
  editId : Option Nat
deriving DecidableEq, Repr

/-- Model of `Number.prototype.toString` used by `handleEditPress` to
prefill the amount field. -/
def ratToString (q : Rat) : String :=
  toString q

/-- The mounted component (part_000 lines 32-40 and 61-77): empty form, no
edit session, filter `All`, rows loaded by the setup effect. -/
def initState (s0 : Store) (ref : CivilDate) : UIState :=
  { store := s0
    expenses := loadExpenses s0 .all ref
    amount := ""
    category := ""
    note := ""
    filter := .all
    isEditing := false
    editId := none }

/-- One user interaction with the screen.  `ref` is the clock at the moment
of the event; `amountNumber` is the `parseFloat` of the amount field,
abstracted as a nondeterministic parameter (its value never matters to the
state-consistency claims, only whether validation passes, which the
`addExpense`/`updateExpense` result encodes). -/
inductive Step : UIState → UIState → Prop
  | changeAmount (s : UIState) (t : String) :
      Step s { s with amount := t }
  | changeCategory (s : UIState) (t : String) :
      Step s { s with category := t }
  | changeNote (s : UIState) (t : String) :
      Step s { s with note := t }
  | pressFilter (s : UIState) (f : ExpFilter) (ref : CivilDate) :
      Step s { s with filter := f, expenses := loadExpenses s.store f ref }
  | pressDelete (s : UIState) (id : Nat) (ref : CivilDate) :
      Step s { s with
        store := (deleteExpense s.store id).1
        expenses := loadExpenses (deleteExpense s.store id).1 s.filter ref }
  | pressEdit (s : UIState) (e : Expense) (he : e ∈ s.expenses) :
      Step s { s with
        editId := some e.id
        amount := ratToString e.amount
        category := e.category
        note := (match e.note with | some n => n | none => "")
        isEditing := true }
  | pressAddOk (s : UIState) (amountNumber : JsNum) (ref : CivilDate)
      (hmode : s.isEditing = false)
      (hok : (addExpense s.store amountNumber s.category s.note
        (daysFromCivil ref)).2 = none) :
      Step s { s with
        store := (addExpense s.store amountNumber s.category s.note
          (daysFromCivil ref)).1
        amount := ""
        category := ""
        note := ""
        expenses := loadExpenses (addExpense s.store amountNumber s.category
          s.note (daysFromCivil ref)).1 s.filter ref }
  | pressAddFail (s : UIState) (amountNumber : JsNum) (ref : CivilDate)
      (hmode : s.isEditing = false)
      (hfail : (addExpense s.store amountNumber s.category s.note
        (daysFromCivil ref)).2 ≠ none) :
      Step s s
  | pressSaveOk (s : UIState) (amountNumber : Option Rat) (ref : CivilDate)
      (hmode : s.isEditing = true)
      (hok : (updateExpense s.store amountNumber s.category s.note
        s.editId).2 = none) :
      Step s { s with
        store := (updateExpense s.store amountNumber s.category s.note
          s.editId).1
        isEditing := false
        editId := none
        amount := ""
        category := ""
        note := ""
        expenses := loadExpenses (updateExpense s.store amountNumber
          s.category s.note s.editId).1 s.filter ref }
  | pressSaveFail (s : UIState) (amountNumber : Option Rat) (ref : CivilDate)
      (hmode : s.isEditing = true)
      (hfail : (updateExpense s.store amountNumber s.category s.note
        s.editId).2 ≠ none) :
      Step s s
  | pressCancel (s : UIState) (hmode : s.isEditing = true) :
      Step s { s with
        isEditing := false
        editId := none
        amount := ""
        category := ""
        note := "" }

/-- The states the screen can actually be in: the mounted state and
anything a sequence of interactions leads to. -/
inductive Reachable : UIState → Prop
  | init (s0 : Store) (ref : CivilDate) : Reachable (initState s0 ref)
  | step (s t : UIState) (hs : Reachable s) (st : Step s t) : Reachable t

/-- The summed amount an accumulator list records for category `c`. -/
def entryVal (m : List (String × Rat)) (c : String) : Rat :=
  ((m.filter (fun p => decide (p.1 = c))).map Prod.snd).sum

/-- The Monday on or before day number `n`, stated from the words of the spec
(ISO week start).  Day number 4 (1970-01-05) was a Monday, so the Mondays
are exactly the day numbers `≡ 4 (mod 7)`. -/
def specWeekStart (n : Int) : Int :=
  n - (n - 4).emod 7

/-- Day number `n` falls on a Monday (JS `getDay` value 1; day 0,
1970-01-01, was a Thursday). -/
def isMonday (n : Int) : Prop :=
  (n + 4).emod 7 = 1

/-- Reference date for concrete checks: 2024-01-10, a Wednesday. -/
def exampleRef : CivilDate :=
  ⟨2024, 1, 10⟩

/-- Concrete store for the ordering example of the spec: two records dated
2024-01-05 (ids 1 and 2) and one dated 2024-01-06 (id 3). -/
def exampleStore : Store :=
  ⟨[⟨1, 10, "Food", none, daysFromCivil ⟨2024, 1, 5⟩⟩,
    ⟨2, 20, "Books", none, daysFromCivil ⟨2024, 1, 5⟩⟩,
    ⟨3, 30, "Rent", none, daysFromCivil ⟨2024, 1, 6⟩⟩], 4⟩

/-- Concrete record list for aggregation checks: one Food record (5) and
one Books record (7). -/
def wrecords : List Expense :=
  [⟨1, 5, "Food", none, 0⟩, ⟨2, 7, "Books", none, 0⟩]


theorem foldl_add_amount (recs : List Expense) (acc : Rat) :
    recs.foldl (fun a e => a + e.amount) acc =
      acc + (recs.map Expense.amount).sum := by
  induction recs generalizing acc with
  | nil => simp
  | cons e recs ih => simp [ih, add_assoc]

theorem sum_snd_bumpCategory (cat : String) (amt : Rat)
    (m : List (String × Rat)) :
    ((bumpCategory cat amt m).map Prod.snd).sum =
      (m.map Prod.snd).sum + amt := by
  induction m with
  | nil => simp [bumpCategory]
  | cons p m ih =>
    by_cases h : p.1 = cat
    · simp only [bumpCategory, if_pos h, List.map_cons, List.sum_cons]
      ring
    · simp only [bumpCategory, if_neg h, List.map_cons, List.sum_cons, ih]
      ring

theorem sum_snd_foldl_bump (recs : List Expense) :
    ∀ m : List (String × Rat),
      ((recs.foldl (fun m e => bumpCategory e.category e.amount m) m).map
        Prod.snd).sum = (m.map Prod.snd).sum + (recs.map Expense.amount).sum := by
  induction recs with
  | nil => intro m; simp
  | cons e recs ih =>
    intro m
    simp only [List.foldl_cons, List.map_cons, List.sum_cons]
    rw [ih, sum_snd_bumpCategory]
    ring

theorem entryVal_nil (c : String) : entryVal [] c = 0 :=
  rfl

theorem entryVal_cons (q : String × Rat) (m : List (String × Rat)) (c : String) :
    entryVal (q :: m) c = (if q.1 = c then q.2 else 0) + entryVal m c := by
  unfold entryVal
  by_cases h : q.1 = c
  · rw [List.filter_cons_of_pos (by simp [h]), if_pos h, List.map_cons,
      List.sum_cons]
  · rw [List.filter_cons_of_neg (by simp [h]), if_neg h, zero_add]

theorem entryVal_eq_zero (m : List (String × Rat)) (c : String)
    (h : c ∉ m.map Prod.fst) : entryVal m c = 0 := by
  induction m with
  | nil => rfl
  | cons q m ih =>
    rw [List.map_cons, List.mem_cons] at h
    push_neg at h
    rw [entryVal_cons, if_neg (fun hq => h.1 hq.symm), ih h.2, add_zero]

theorem entryVal_bump_same (cat : String) (amt : Rat)
    (m : List (String × Rat)) :
    entryVal (bumpCategory cat amt m) cat = entryVal m cat + amt := by
  induction m with
  | nil => simp [bumpCategory, entryVal_cons, entryVal_nil]
  | cons p m ih =>
    obtain ⟨pc, pv⟩ := p
    simp only [bumpCategory]
    by_cases h : pc = cat
    · subst h
      rw [if_pos rfl, entryVal_cons, entryVal_cons, if_pos rfl, if_pos rfl]
      ring
    · rw [if_neg h, entryVal_cons, entryVal_cons, if_neg h, ih]
      ring

theorem entryVal_bump_other (cat c : String) (amt : Rat)
    (m : List (String × Rat)) (h : c ≠ cat) :
    entryVal (bumpCategory cat amt m) c = entryVal m c := by
  induction m with
  | nil =>
    simp only [bumpCategory]
    rw [entryVal_cons, if_neg (fun hc => h hc.symm), entryVal_nil, zero_add]
  | cons p m ih =>
    obtain ⟨pc, pv⟩ := p
    simp only [bumpCategory]
    by_cases hp : pc = cat
    · subst hp
      rw [if_pos rfl, entryVal_cons, entryVal_cons,
        if_neg (fun hc => h hc.symm), if_neg (fun hc => h hc.symm)]
    · rw [if_neg hp, entryVal_cons, entryVal_cons, ih]

theorem entryVal_foldl_bump (recs : List Expense) :
    ∀ (m : List (String × Rat)) (c : String),
      entryVal (recs.foldl (fun m e => bumpCategory e.category e.amount m) m)
        c = entryVal m c +
          ((recs.filter (fun e => decide (e.category = c))).map
            Expense.amount).sum := by
  induction recs with
  | nil => intro m c; simp
  | cons e recs ih =>
    intro m c
    simp only [List.foldl_cons]
    rw [ih]
    by_cases h : e.category = c
    · subst h
      rw [List.filter_cons_of_pos (by simp), entryVal_bump_same,
        List.map_cons, List.sum_cons]
      ring
    · rw [List.filter_cons_of_neg (by simp [h]),
        entryVal_bump_other _ _ _ _ (Ne.symm h)]

theorem mem_keys_bumpCategory (c0 cat : String) (amt : Rat)
    (m : List (String × Rat)) :
    c0 ∈ (bumpCategory cat amt m).map Prod.fst ↔
      c0 = cat ∨ c0 ∈ m.map Prod.fst := by
  induction m with
  | nil => simp [bumpCategory]
  | cons p m ih =>
    obtain ⟨pc, pv⟩ := p
    simp only [bumpCategory]
    by_cases h : pc = cat
    · subst h
      rw [if_pos rfl]
      simp only [List.map_cons, List.mem_cons]
      tauto
    · rw [if_neg h]
      simp only [List.map_cons, List.mem_cons]
      rw [ih]
      tauto

theorem nodup_keys_bumpCategory (cat : String) (amt : Rat)
    (m : List (String × Rat)) (h : (m.map Prod.fst).Nodup) :
    ((bumpCategory cat amt m).map Prod.fst).Nodup := by
  induction m with
  | nil => simp [bumpCategory]
  | cons p m ih =>
    rw [List.map_cons, List.nodup_cons] at h
    by_cases hp : p.1 = cat
    · rw [bumpCategory, if_pos hp, List.map_cons, List.nodup_cons]
      exact h
    · rw [bumpCategory, if_neg hp, List.map_cons, List.nodup_cons]
      refine ⟨fun hmem => ?_, ih h.2⟩
      rcases (mem_keys_bumpCategory _ _ _ _).mp hmem with heq | hmem2
      · exact hp heq
      · exact h.1 hmem2

theorem nodup_keys_foldl_bump (recs : List Expense) :
    ∀ m : List (String × Rat), (m.map Prod.fst).Nodup →
      ((recs.foldl (fun m e => bumpCategory e.category e.amount m) m).map
        Prod.fst).Nodup := by
  induction recs with
  | nil => intro m hm; simpa using hm
  | cons e recs ih =>
    intro m hm
    simp only [List.foldl_cons]
    exact ih _ (nodup_keys_bumpCategory _ _ _ hm)

theorem mem_keys_foldl_bump (recs : List Expense) :
    ∀ (m : List (String × Rat)) (c : String),
      c ∈ (recs.foldl (fun m e => bumpCategory e.category e.amount m) m).map
          Prod.fst ↔
        c ∈ m.map Prod.fst ∨ c ∈ recs.map Expense.category := by
  induction recs with
  | nil => intro m c; simp
  | cons e recs ih =>
    intro m c
    simp only [List.foldl_cons, List.map_cons, List.mem_cons]
    rw [ih, mem_keys_bumpCategory]
    tauto

theorem entry_eq_entryVal (m : List (String × Rat)) (p : String × Rat)
    (hn : (m.map Prod.fst).Nodup) (hp : p ∈ m) :
    p.2 = entryVal m p.1 := by
  induction m with
  | nil => cases hp
  | cons q m ih =>
    rw [List.map_cons, List.nodup_cons] at hn
    rcases List.mem_cons.mp hp with rfl | hp2
    · rw [entryVal_cons, if_pos rfl, entryVal_eq_zero m p.1 hn.1, add_zero]
    · have hq : q.1 ≠ p.1 :=
        fun hq => hn.1 (hq ▸ List.mem_map.mpr ⟨p, hp2, rfl⟩)
      rw [entryVal_cons, if_neg hq, ih hn.2 hp2, zero_add]

theorem filter_orderedInsert_of_pos {α : Type} (r : α → α → Prop)
    [DecidableRel r] (p : α → Bool) (a : α) (l : List α) (ha : p a = true)
    (h : ∀ b ∈ l, p b = true → r a b) :
    (List.orderedInsert r a l).filter p = a :: l.filter p := by
  induction l with
  | nil => simp [List.orderedInsert, ha]
  | cons b l ih =>
    simp only [List.orderedInsert]
    by_cases hr : r a b
    · rw [if_pos hr, List.filter_cons_of_pos ha]
    · rw [if_neg hr]
      have hb : p b = false := by
        cases hpb : p b
        · rfl
        · exact absurd (h b (List.mem_cons_self b l) hpb) hr
      rw [List.filter_cons_of_neg (by simp [hb]),
        ih (fun x hx hpx => h x (List.mem_cons_of_mem b hx) hpx),
        List.filter_cons_of_neg (by simp [hb])]

theorem filter_orderedInsert_of_neg {α : Type} (r : α → α → Prop)
    [DecidableRel r] (p : α → Bool) (a : α) (l : List α) (ha : p a = false) :
    (List.orderedInsert r a l).filter p = l.filter p := by
  induction l with
  | nil => simp [List.orderedInsert, ha]
  | cons b l ih =>
    simp only [List.orderedInsert]
    by_cases hr : r a b
    · rw [if_pos hr, List.filter_cons_of_neg (by simp [ha])]
    · rw [if_neg hr]
      rw [List.filter_cons, List.filter_cons, ih]

/-- A stable sort does not reorder within a class of mutually tied
elements: filtering the sorted list on such a class returns the class in
its original order. -/
theorem filter_insertionSort_stable {α : Type} (r : α → α → Prop)
    [DecidableRel r] (p : α → Bool)
    (hp : ∀ x y, p x = true → p y = true → r x y) (l : List α) :
    (List.insertionSort r l).filter p = l.filter p := by
  induction l with
  | nil => rfl
  | cons b l ih =>
    simp only [List.insertionSort]
    by_cases hb : p b = true
    · rw [filter_orderedInsert_of_pos r p b _ hb
        (fun y hy hpy => hp b y hb hpy), ih, List.filter_cons_of_pos hb]
    · have hb' : p b = false := by
        cases hpb : p b
        · rfl
        · exact absurd hpb hb
      rw [filter_orderedInsert_of_neg r p b _ hb', ih,
        List.filter_cons_of_neg (by simp [hb'])]

/-- C1: for every input whose parsed amount is a number `> 0` and whose
category is nonempty after trimming, `add` persists exactly one new record:
the row list is extended by a single row carrying the parsed amount, the
trimmed category, the note normalized to `none` when empty after trimming,
the current date stamp, and the next id. -/
theorem addExpense_valid_appends_one_record
    (s : Store) (a : Rat) (category note : String) (today : Int)
    (ha : 0 < a) (hc : jsTrim category ≠ "") :
    addExpense s (.finite a) category note today =
      ({ rows := s.rows ++
          [{ id := s.nextId
             amount := a
             category := jsTrim category
             note := if jsTrim note = "" then none else some (jsTrim note)
             date := today }]
         nextId := s.nextId + 1 }, none) := by
  simp only [addExpense, jsIsNaN, jsLeZero, Bool.false_or]
  rw [if_neg (by simp only [decide_eq_true_eq]; exact not_le.mpr ha),
    if_neg hc]

theorem addExpense_valid_appends_one_record_witness :
    addExpense ⟨[], 1⟩ (.finite 5) " Food " "  " 19800 =
      ((⟨[⟨1, 5, "Food", none, 19800⟩], 2⟩ : Store), none) := by
  have h := addExpense_valid_appends_one_record ⟨[], 1⟩ 5 " Food " "  " 19800
    (by norm_num) (by decide)
  rw [h]
  decide

/-- C2 (code bug, evaluated at the failing input): the spec demands the
amount be a finite number `> 0`, but the check at part_000 line 86 is only
`isNaN(amountNumber) || amountNumber <= 0` — there is no finiteness check.
At the failing input `+Infinity` (e.g. the text `Infinity`, or a numeral of
about 310 digits, in the amount field) with category `Food`, validation
passes: `add` raises no error — in particular no `ValidationError` — and
the INSERT executes, changing the store (the AUTOINCREMENT id is consumed
by the written non-finite row).  The inputs the check does cover — `NaN`,
`-Infinity`, non-positive finite amounts, and a blank category — are
rejected with a `ValidationError` and the store unchanged, exactly as the
claim says. -/
theorem addExpense_accepts_infinity :
    (addExpense ⟨[], 1⟩ (.posInf) "Food" "" 0).2 = none ∧
    (addExpense ⟨[], 1⟩ (.posInf) "Food" "" 0).2 ≠ some .validationError ∧
    (addExpense ⟨[], 1⟩ (.posInf) "Food" "" 0).1 ≠ ⟨[], 1⟩ ∧
    (jsIsNaN .posInf || jsLeZero .posInf) = false ∧
    addExpense ⟨[], 1⟩ (.nan) "Food" "" 0 = (⟨[], 1⟩, some .validationError) ∧
    addExpense ⟨[], 1⟩ (.negInf) "Food" "" 0 = (⟨[], 1⟩, some .validationError) ∧
    addExpense ⟨[], 1⟩ (.finite (-3)) "Food" "" 0 =
      (⟨[], 1⟩, some .validationError) ∧
    addExpense ⟨[], 1⟩ (.finite 5) "" "x" 0 =
      (⟨[], 1⟩, some .validationError) := by
  decide

/-- C3 (counterexample to the claim as stated): updating an id for which no
record exists does not fail with `NotFoundError` — the code raises no error
at all: on the empty store, a valid update of id 1 returns no error. -/
theorem updateExpense_missing_id_no_error_counterexample :
    (updateExpense ⟨[], 1⟩ (some 5) "Food" "" (some 1)).2 = none ∧
    (updateExpense ⟨[], 1⟩ (some 5) "Food" "" (some 1)).2 ≠
      some .notFoundError := by
  decide

/-- C3 (amended): `update` applies the same validation as `add`; with valid
inputs and an id for which no record exists it succeeds silently as a no-op
(`UPDATE` matches no row, no error is raised) and the persisted record set
is unchanged; invalid inputs still fail validation with no write. -/
theorem updateExpense_missing_id_silent_noop
    (s : Store) (a : Rat) (category note : String) (id : Nat)
    (ha : 0 < a) (hc : jsTrim category ≠ "") (hid : ∀ e ∈ s.rows, e.id ≠ id) :
    updateExpense s (some a) category note (some id) = (s, none) ∧
    (∀ b : Rat, b ≤ 0 →
      updateExpense s (some b) category note (some id) =
        (s, some .validationError)) ∧
    updateExpense s none category note (some id) =
      (s, some .validationError) := by
  refine ⟨?_, fun b hb => ?_, rfl⟩
  · simp only [updateExpense]
    rw [if_neg (fun hor => hor.elim (fun h1 => absurd h1 (not_le.mpr ha)) hc)]
    have hrows : s.rows.map (fun e =>
        if e.id = id then
          { e with
              amount := a
              category := jsTrim category
              note := if jsTrim note = "" then none else some (jsTrim note) }
        else e) = s.rows := by
      conv_rhs => rw [← List.map_id s.rows]
      exact List.map_congr_left (fun e he => by rw [if_neg (hid e he)]; rfl)
    rw [hrows]
  · simp only [updateExpense]
    rw [if_pos (Or.inl hb)]

theorem updateExpense_missing_id_silent_noop_witness :
    updateExpense ⟨[⟨2, 7, "Rent", none, 0⟩], 3⟩ (some 5) "Food" ""
        (some 1) = (⟨[⟨2, 7, "Rent", none, 0⟩], 3⟩, none) :=
  (updateExpense_missing_id_silent_noop ⟨[⟨2, 7, "Rent", none, 0⟩], 3⟩ 5
    "Food" "" 1 (by norm_num) (by decide) (by decide)).1

/-- C4: `update` never changes the `date` or `id` of any record: whatever the
input and outcome, the id/date projection of the row list is unchanged, and
rows other than the targeted id are untouched entirely. -/
theorem updateExpense_preserves_id_and_date
    (s : Store) (amountNumber : Option Rat) (category note : String)
    (editId : Option Nat) :
    ((updateExpense s amountNumber category note editId).1.rows.map
        (fun e => (e.id, e.date)) =
      s.rows.map (fun e => (e.id, e.date))) ∧
    (∀ i, editId = some i → ∀ e ∈ s.rows, e.id ≠ i →
      e ∈ (updateExpense s amountNumber category note editId).1.rows) := by
  constructor
  · cases amountNumber with
    | none => rfl
    | some a =>
      cases editId with
      | none => rfl
      | some id =>
        simp only [updateExpense]
        by_cases h : a ≤ 0 ∨ jsTrim category = ""
        · rw [if_pos h]
        · rw [if_neg h]
          simp only [List.map_map]
          exact List.map_congr_left (fun e _ => by
            by_cases he : e.id = id <;> simp [Function.comp, he])
  · rintro i rfl e he hne
    cases amountNumber with
    | none => exact he
    | some a =>
      simp only [updateExpense]
      by_cases h : a ≤ 0 ∨ jsTrim category = ""
      · rw [if_pos h]; exact he
      · rw [if_neg h]
        exact List.mem_map.mpr ⟨e, he, by rw [if_neg hne]⟩

theorem updateExpense_preserves_id_and_date_witness :
    ((updateExpense ⟨[⟨1, 5, "Food", none, 100⟩], 2⟩ (some 9) "Books" "x"
        (some 1)).1.rows.map (fun e => (e.id, e.date)) = [(1, 100)]) ∧
    (⟨1, 5, "Food", none, 100⟩ : Expense) ∈
      (updateExpense ⟨[⟨1, 5, "Food", none, 100⟩], 2⟩ (some 9) "Books" "x"
        (some 2)).1.rows := by
  have h1 := (updateExpense_preserves_id_and_date
    ⟨[⟨1, 5, "Food", none, 100⟩], 2⟩ (some 9) "Books" "x" (some 1)).1
  have h2 := (updateExpense_preserves_id_and_date
    ⟨[⟨1, 5, "Food", none, 100⟩], 2⟩ (some 9) "Books" "x" (some 2)).2
    2 rfl ⟨1, 5, "Food", none, 100⟩ (by decide) (by decide)
  exact ⟨by rw [h1]; decide, h2⟩

/-- C7: delete is idempotent: it never fails, it removes exactly the rows
with the given id, deleting an id with no record is a no-op rather than an
error, and deleting twice in a row equals deleting once. -/
theorem deleteExpense_idempotent (s : Store) (id : Nat) :
    ((deleteExpense s id).2 = none) ∧
    (∀ e, e ∈ (deleteExpense s id).1.rows ↔ e ∈ s.rows ∧ e.id ≠ id) ∧
    (deleteExpense (deleteExpense s id).1 id = deleteExpense s id) ∧
    ((∀ e ∈ s.rows, e.id ≠ id) → (deleteExpense s id).1 = s) := by
  refine ⟨rfl, fun e => ?_, ?_, fun h => ?_⟩
  · simp [deleteExpense, List.mem_filter]
  · unfold deleteExpense
    simp [List.filter_filter]
  · unfold deleteExpense
    have : s.rows.filter (fun e => decide (e.id ≠ id)) = s.rows :=
      List.filter_eq_self.mpr (fun e he => decide_eq_true (h e he))
    rw [this]

/-- Euclidean division facts by 7, in the shape `omega` consumes. -/
theorem emod7_decomp (m : Int) :
    0 ≤ m.emod 7 ∧ m.emod 7 < 7 ∧ 7 * m.ediv 7 + m.emod 7 = m :=
  ⟨Int.emod_nonneg _ (by norm_num), Int.emod_lt_of_pos _ (by norm_num),
    Int.ediv_add_emod _ _⟩

/-- C5: `ThisWeek` returns exactly the records dated in the inclusive range
from the Monday on or before the reference date (six days prior when the
reference is a Sunday) to the reference date; `ThisMonth` returns exactly
those dated in the inclusive range from the first calendar day of the
reference month to the reference date; boundary dates are included and
future dates are excluded by both. -/
theorem loadExpenses_week_month_range (s : Store) (ref : CivilDate)
    (e : Expense) :
    (e ∈ loadExpenses s .thisWeek ref ↔
      e ∈ s.rows ∧ specWeekStart (daysFromCivil ref) ≤ e.date ∧
        e.date ≤ daysFromCivil ref) ∧
    (e ∈ loadExpenses s .thisMonth ref ↔
      e ∈ s.rows ∧ daysFromCivil ⟨ref.year, ref.month, 1⟩ ≤ e.date ∧
        e.date ≤ daysFromCivil ref) ∧
    isMonday (specWeekStart (daysFromCivil ref)) ∧
    specWeekStart (daysFromCivil ref) ≤ daysFromCivil ref ∧
    daysFromCivil ref < specWeekStart (daysFromCivil ref) + 7 ∧
    (jsGetDay ref = 0 →
      specWeekStart (daysFromCivil ref) = daysFromCivil ref - 6) ∧
    (daysFromCivil ref < e.date →
      e ∉ loadExpenses s .thisWeek ref ∧ e ∉ loadExpenses s .thisMonth ref) := by
  have hws : getWeekStart ref = specWeekStart (daysFromCivil ref) := by
    unfold getWeekStart specWeekStart jsGetDay
    generalize daysFromCivil ref = n
    obtain ⟨b1, b2, e1⟩ := emod7_decomp (n + 4)
    obtain ⟨b3, b4, e2⟩ := emod7_decomp (n - 4)
    split_ifs <;> omega
  have hweek : e ∈ loadExpenses s .thisWeek ref ↔
      e ∈ s.rows ∧ specWeekStart (daysFromCivil ref) ≤ e.date ∧
        e.date ≤ daysFromCivil ref := by
    simp [loadExpenses, List.mem_filter, datePred, hws]
  have hmonth : e ∈ loadExpenses s .thisMonth ref ↔
      e ∈ s.rows ∧ daysFromCivil ⟨ref.year, ref.month, 1⟩ ≤ e.date ∧
        e.date ≤ daysFromCivil ref := by
    simp [loadExpenses, List.mem_filter, datePred, getMonthStart]
  refine ⟨hweek, hmonth, ?_, ?_, ?_, ?_, fun hfut => ⟨?_, ?_⟩⟩
  · unfold isMonday specWeekStart
    generalize daysFromCivil ref = n
    obtain ⟨b1, b2, e1⟩ := emod7_decomp (n - 4)
    obtain ⟨b3, b4, e2⟩ := emod7_decomp (n - (n - 4).emod 7 + 4)
    omega
  · unfold specWeekStart
    generalize daysFromCivil ref = n
    obtain ⟨b1, b2, e1⟩ := emod7_decomp (n - 4)
    omega
  · unfold specWeekStart
    generalize daysFromCivil ref = n
    obtain ⟨b1, b2, e1⟩ := emod7_decomp (n - 4)
    omega
  · unfold jsGetDay specWeekStart
    generalize daysFromCivil ref = n
    obtain ⟨b1, b2, e1⟩ := emod7_decomp (n + 4)
    obtain ⟨b3, b4, e2⟩ := emod7_decomp (n - 4)
    omega
  · intro hmem
    have := (hweek.mp hmem).2.2
    omega
  · intro hmem
    have := (hmonth.mp hmem).2.2
    omega

theorem loadExpenses_week_month_range_witness :
    (⟨4, 1, "Trip", none, daysFromCivil ⟨2024, 1, 11⟩⟩ : Expense) ∉
      loadExpenses exampleStore .thisWeek exampleRef ∧
    (⟨4, 1, "Trip", none, daysFromCivil ⟨2024, 1, 11⟩⟩ : Expense) ∉
      loadExpenses exampleStore .thisMonth exampleRef :=
  (loadExpenses_week_month_range exampleStore exampleRef
    ⟨4, 1, "Trip", none, daysFromCivil ⟨2024, 1, 11⟩⟩).2.2.2.2.2.2 (by decide)

/-- C6: a query returns the matching records ordered by date descending and,
for equal dates, by id descending; on the concrete example of the spec (records
dated 2024-01-05 with ids 1, 2 and 2024-01-06 with id 3) `query(All)`
returns ids `[3, 2, 1]`. -/
theorem loadExpenses_ordered_desc (s : Store) (f : ExpFilter) (ref : CivilDate)
    (hids : (s.rows.map Expense.id).Nodup) :
    (loadExpenses s f ref).Perm
      (s.rows.filter (fun e => datePred f ref e.date)) ∧
    (loadExpenses s f ref).Pairwise
      (fun a b => b.date < a.date ∨ (b.date = a.date ∧ b.id < a.id)) ∧
    (loadExpenses exampleStore .all exampleRef).map Expense.id = [3, 2, 1] := by
  have hperm := List.perm_insertionSort expBefore
    (s.rows.filter (fun e => datePred f ref e.date))
  refine ⟨hperm, ?_, by decide⟩
  have hsorted : (loadExpenses s f ref).Pairwise expBefore :=
    List.sorted_insertionSort expBefore _
  have hfilt : ((s.rows.filter (fun e => datePred f ref e.date)).map
      Expense.id).Nodup :=
    List.Nodup.sublist ((List.filter_sublist _).map Expense.id) hids
  have hout : ((loadExpenses s f ref).map Expense.id).Nodup :=
    ((hperm.map Expense.id).nodup_iff).mpr hfilt
  have hne : (loadExpenses s f ref).Pairwise (fun a b => a.id ≠ b.id) :=
    List.pairwise_map.mp hout
  exact (hsorted.and hne).imp (fun hab => by
    rcases hab with ⟨h1 | ⟨heq, hle⟩, hne2⟩
    · exact Or.inl h1
    · exact Or.inr ⟨heq, by omega⟩)

theorem loadExpenses_ordered_desc_witness :
    (exampleStore.rows.map Expense.id).Nodup ∧
    (loadExpenses exampleStore .all exampleRef).map Expense.id = [3, 2, 1] :=
  ⟨by decide,
    (loadExpenses_ordered_desc exampleStore .all exampleRef (by decide)).2.2⟩

theorem deleteExpense_idempotent_witness :
    (⟨2, 7, "Rent", none, 0⟩ : Expense) ∈
      (deleteExpense ⟨[⟨1, 5, "Food", none, 0⟩, ⟨2, 7, "Rent", none, 0⟩], 3⟩
        1).1.rows ∧
    (deleteExpense ⟨[⟨2, 7, "Rent", none, 0⟩], 3⟩ 1).1 =
      ⟨[⟨2, 7, "Rent", none, 0⟩], 3⟩ := by
  have h1 := (deleteExpense_idempotent
    ⟨[⟨1, 5, "Food", none, 0⟩, ⟨2, 7, "Rent", none, 0⟩], 3⟩ 1).2.1
    ⟨2, 7, "Rent", none, 0⟩
  have h2 := (deleteExpense_idempotent ⟨[⟨2, 7, "Rent", none, 0⟩], 3⟩ 1).2.2.2
    (by decide)
  exact ⟨h1.mpr (by decide), h2⟩


/-- C8: the per-category totals returned by `categoryTotals`, summed across
all returned categories, equal `overallTotal`, which itself is the sum of
`amount` over all given records and `0` for the empty set. -/
theorem categoryTotals_sum_eq_overallTotal (records : List Expense) :
    ((categoryTotals records).map Prod.snd).sum = overallTotal records ∧
    overallTotal records = (records.map Expense.amount).sum ∧
    overallTotal ([] : List Expense) = 0 := by
  have h1 : overallTotal records = (records.map Expense.amount).sum := by
    unfold overallTotal
    rw [foldl_add_amount, zero_add]
  refine ⟨?_, h1, rfl⟩
  have hperm : (categoryTotals records).Perm (categoryMap records) :=
    List.perm_insertionSort catGe _
  rw [(hperm.map Prod.snd).sum_eq, h1]
  unfold categoryMap
  rw [sum_snd_foldl_bump]
  simp

/-- C9: `categoryTotals` returns one entry per distinct category of the
input, each mapping the category to the summed amount of its records,
ordered by total descending; between equal totals the order is the
deterministic first-occurrence order of the categories (the sort is
stable). -/
theorem categoryTotals_per_category (records : List Expense) :
    ((categoryTotals records).map Prod.fst).Nodup ∧
    (∀ c, c ∈ (categoryTotals records).map Prod.fst ↔
      c ∈ records.map Expense.category) ∧
    (∀ p ∈ categoryTotals records,
      p.2 = ((records.filter (fun e => decide (e.category = p.1))).map
        Expense.amount).sum) ∧
    (categoryTotals records).Pairwise (fun a b => b.2 ≤ a.2) ∧
    (∀ t : Rat, (categoryTotals records).filter (fun p => decide (p.2 = t)) =
      (categoryMap records).filter (fun p => decide (p.2 = t))) := by
  have hperm : (categoryTotals records).Perm (categoryMap records) :=
    List.perm_insertionSort catGe _
  have hnodup : ((categoryMap records).map Prod.fst).Nodup :=
    nodup_keys_foldl_bump records [] (by simp)
  refine ⟨((hperm.map Prod.fst).nodup_iff).mpr hnodup, fun c => ?_,
    fun p hp => ?_, List.sorted_insertionSort catGe _, fun t => ?_⟩
  · rw [(hperm.map Prod.fst).mem_iff]
    have h := mem_keys_foldl_bump records [] c
    simpa using h
  · have hp2 : p ∈ categoryMap records := (hperm.mem_iff).mp hp
    calc p.2 = entryVal (categoryMap records) p.1 :=
          entry_eq_entryVal (categoryMap records) p hnodup hp2
      _ = entryVal [] p.1 +
            ((records.filter (fun e => decide (e.category = p.1))).map
              Expense.amount).sum := by
          unfold categoryMap
          exact entryVal_foldl_bump records [] p.1
      _ = ((records.filter (fun e => decide (e.category = p.1))).map
            Expense.amount).sum := by
          rw [entryVal_nil, zero_add]
  · exact filter_insertionSort_stable catGe (fun p => decide (p.2 = t))
      (fun x y hx hy => by
        unfold catGe
        rw [of_decide_eq_true hy, of_decide_eq_true hx]) _

theorem categoryTotals_per_category_witness :
    ("Books", (7 : Rat)) ∈ categoryTotals wrecords ∧
    ("Books", (7 : Rat)).2 =
      ((wrecords.filter (fun e =>
        decide (e.category = ("Books", (7 : Rat)).1))).map
          Expense.amount).sum :=
  ⟨by decide,
    (categoryTotals_per_category wrecords).2.2.1 ("Books", 7) (by decide)⟩

/-- C10: in every reachable screen state the two pieces of edit-session
state agree — `isEditing` is true exactly when `editId` is non-null — and
every interaction preserves this agreement: starting an edit session sets
both, saving or cancelling clears both together. -/
theorem edit_session_state_consistent :
    (∀ s : UIState, Reachable s → (s.isEditing = true ↔ s.editId ≠ none)) ∧
    (∀ s t : UIState, Step s t →
      (s.isEditing = true ↔ s.editId ≠ none) →
      (t.isEditing = true ↔ t.editId ≠ none)) := by
  have hstep : ∀ s t : UIState, Step s t →
      (s.isEditing = true ↔ s.editId ≠ none) →
      (t.isEditing = true ↔ t.editId ≠ none) := by
    intro s t st ih
    cases st <;> simp_all
  refine ⟨fun s h => ?_, hstep⟩
  induction h with
  | init s0 ref => simp [initState]
  | step s t hs st ih => exact hstep s t st ih

theorem edit_session_state_consistent_witness :
    (initState ⟨[], 1⟩ exampleRef).isEditing = true ↔
      (initState ⟨[], 1⟩ exampleRef).editId ≠ none :=
  edit_session_state_consistent.1 _ (Reachable.init ⟨[], 1⟩ exampleRef)
